import Mathlib

/-!
Verification of the ACVP test module wrapper
(`util/fipstools/acvp/acvptool/testmodulewrapper/testmodulewrapper.go`).

Byte strings are modelled as `List Nat`; every decode masks each byte to
8 bits, mirroring the fact that the wire carries genuine bytes.  Go's
`uint32` arithmetic is modelled as `Nat` arithmetic reduced `% 2^32` at the
points where the source works in 32-bit registers.  A handler that can
panic (out-of-bounds slice access) returns `GoResult`, whose `panicked`
constructor models the Go runtime panic; handlers that cannot panic return
`Except String`.  The process random source (`crypto/rand.Reader`) is a
byte stream `r : Nat → Nat` read at increasing offsets; external
cryptographic collaborators (HMAC-SHA-256, AES) are abstract parameters,
constrained only by the hypotheses each theorem states.
-/

namespace TestModuleWrapper

/-- Byte strings on the wire. -/
abbrev Bytes := List Nat

/-- The bytes of an ASCII string literal. -/
def strBytes (s : String) : Bytes := s.data.map Char.toNat

/-- Little-endian value of a byte list, each byte masked to 8 bits. -/
def leNat (bs : Bytes) : Nat := bs.foldr (fun b acc => b % 256 + 256 * acc) 0

/-- `binary.LittleEndian.Uint32`: `none` models the Go bounds-check panic
when the slice has fewer than 4 bytes; longer slices use their first 4. -/
def leUint32 (bs : Bytes) : Option Nat :=
  if bs.length < 4 then none else some (leNat (bs.take 4))

/-- `binary.BigEndian.PutUint32`: the 4 big-endian bytes of a 32-bit value. -/
def bigEndian32 (i : Nat) : Bytes :=
  [i / 2 ^ 24 % 256, i / 2 ^ 16 % 256, i / 2 ^ 8 % 256, i % 256]

/-- `len` bytes drawn from the process random stream `r` starting at
offset `start` (successive `rand.Reader.Read` calls advance the offset). -/
def randTake (r : Nat → Nat) (start len : Nat) : Bytes :=
  (List.range len).map (fun j => r (start + j) % 256)

/-- Outcome of a Go handler that may panic. -/
inductive GoResult (α : Type) where
  | panicked
  | errored (msg : String)
  | ok (a : α)
deriving DecidableEq

/-- Heap allocations performed by `kdfCounter` that the spec talks about:
the fresh 32-byte key buffer and the derived-output buffer. -/
inductive AllocEvent where
  | keyBuf (size : Nat)
  | outBuf (size : Nat)
deriving DecidableEq

/-- The literal PRF name `kdfCounter` accepts. -/
def kdfPRFName : Bytes := strBytes "HMAC-SHA2-256"

/-- The literal counter-location string `kdfCounter` accepts. -/
def kdfCounterLocName : Bytes := strBytes "before fixed data"

/-- The digest concatenation of the `kdfCounter` loop: for `i` in `1..n`,
`HMAC(key, bigEndian32(i) ++ fixedData)`, concatenated in order. -/
def kdfBlocks (hmac : Bytes → Bytes → Bytes) (key fd : Bytes) : Nat → Bytes
  | 0 => []
  | n + 1 => kdfBlocks hmac key fd n ++ hmac key (bigEndian32 (n + 1) ++ fd)

/-- Shallow embedding of `kdfCounter`.  Mirrors the source order: parse
`args[0]` and `args[4]` as little-endian `uint32` (panicking when shorter
than 4 bytes), validate PRF / counter location / counter bits, generate a
random 32-byte key when the supplied key is empty, then check that
`outputBytes + 31` does not overflow 32 bits before allocating the output
buffer, generate 8 random fixed-data bytes, and run the HMAC counter loop.
Returns the handler outcome together with the allocation-event trace. -/
def kdfCounter (hmac : Bytes → Bytes → Bytes) (r : Nat → Nat) (args : List Bytes) :
    GoResult (List Bytes) × List AllocEvent :=
  match args with
  | [outputBytes32, prf, counterLoc, key, counterBits32] =>
    match leUint32 outputBytes32 with
    | none => (.panicked, [])
    | some outputBytes =>
      match leUint32 counterBits32 with
      | none => (.panicked, [])
      | some counterBits =>
        if prf ≠ kdfPRFName then
          (.errored "KDF received unsupported PRF", [])
        else if counterLoc ≠ kdfCounterLocName then
          (.errored "KDF received unsupported counter location", [])
        else if counterBits ≠ 32 then
          (.errored "KDF received unsupported counter length", [])
        else
          let keyUsed := if key = [] then randTake r 0 32 else key
          let keyAllocs : List AllocEvent := if key = [] then [.keyBuf 32] else []
          let fdStart : Nat := if key = [] then 32 else 0
          if (outputBytes + 31) % 4294967296 < outputBytes then
            (.errored "KDF received excessive output length", keyAllocs)
          else
            let n := (outputBytes + 31) % 4294967296 / 32
            let fd := randTake r fdStart 8
            let result := kdfBlocks hmac keyUsed fd n
            (.ok [keyUsed, fd, result.take outputBytes],
             keyAllocs ++ [.outBuf (32 * n)])
  | _ => (.errored "KDF wrong arg count", [])

/-- A block cipher instance as returned by `aes.NewCipher`: paired
encryption and decryption transforms on 16-byte blocks.  AES itself is an
external collaborator; theorems state the properties they need of it. -/
structure Block where
  enc : Bytes → Bytes
  dec : Bytes → Bytes

/-- An XTS cipher: `k1` transforms data blocks, `k2` encrypts the tweak. -/
structure XTSCipher where
  k1 : Block
  k2 : Block

/-- `xts.NewCipher`: split the key in half and build two block-cipher
instances from the halves (external `golang.org/x/crypto/xts` package). -/
def xtsNewCipher (aesNew : Bytes → Except String Block) (key : Bytes) :
    Except String XTSCipher := do
  let k1 ← aesNew (key.take (key.length / 2))
  let k2 ← aesNew (key.drop (key.length / 2))
  pure ⟨k1, k2⟩

/-- XOR of a data block with the tweak (`x[j] ^= tweak[j]`). -/
def xorB (a b : Bytes) : Bytes := List.zipWith (fun x y => x ^^^ y) a b

/-- Carry-chain pass of the GF(2^128) doubling: shift each byte left by
one, propagating the high bit into the next byte; returns the shifted
bytes and the final carry. -/
def mul2Aux : Bytes → Nat → Bytes × Nat
  | [], c => ([], c)
  | b :: rest, c =>
    let p := mul2Aux rest (b % 256 / 128)
    ((b % 256 * 2 % 256 + c) :: p.1, p.2)

/-- The XTS tweak-doubling step (`mul2` in `golang.org/x/crypto/xts`):
multiply by `x` in GF(2^128), reducing by `x^128 + x^7 + x^2 + x + 1`
(XOR the low byte with `0x87` when the shift carries out). -/
def mul2 (t : Bytes) : Bytes :=
  if (mul2Aux t 0).2 ≠ 0 then
    match (mul2Aux t 0).1 with
    | [] => []
    | h :: rest => (h ^^^ 135) :: rest
  else (mul2Aux t 0).1

/-- Split a message into consecutive 16-byte blocks. -/
def chunks16 (msg : Bytes) : List Bytes :=
  if h : msg = [] then []
  else msg.take 16 :: chunks16 (msg.drop 16)
termination_by msg.length
decreasing_by
  simp only [List.length_drop]
  exact Nat.sub_lt (List.length_pos.mpr h) (by omega)

/-- The per-block XTS pass: each block is XORed with the running tweak,
put through the data cipher, XORed with the tweak again; the tweak is
doubled between blocks. -/
def xtsProcessChunks (f : Bytes → Bytes) : List Bytes → Bytes → List Bytes
  | [], _ => []
  | b :: rest, tweak => xorB (f (xorB b tweak)) tweak :: xtsProcessChunks f rest (mul2 tweak)

/-- Little-endian 8-byte encoding (`binary.LittleEndian.PutUint64`). -/
def lePut64 (v : Nat) : Bytes := (List.range 8).map (fun j => v / 256 ^ j % 256)

/-- The initial XTS tweak: the sector number, encoded little-endian into a
16-byte block, encrypted under `k2`. -/
def xtsTweakInit (c : XTSCipher) (sectorNum : Nat) : Bytes :=
  c.k2.enc (lePut64 sectorNum ++ List.replicate 8 0)

/-- `xts.Cipher.Encrypt` over whole 16-byte blocks. -/
def xtsEncrypt (c : XTSCipher) (msg : Bytes) (sectorNum : Nat) : Bytes :=
  (xtsProcessChunks c.k1.enc (chunks16 msg) (xtsTweakInit c sectorNum)).flatten

/-- `xts.Cipher.Decrypt` over whole 16-byte blocks. -/
def xtsDecrypt (c : XTSCipher) (msg : Bytes) (sectorNum : Nat) : Bytes :=
  (xtsProcessChunks c.k1.dec (chunks16 msg) (xtsTweakInit c sectorNum)).flatten

/-- Shallow embedding of `doXTS`: validate the message length, the tweak
length, and that the tweak's upper 8 bytes are zero; take the sector
number as the little-endian value of the tweak's lower 8 bytes; build the
XTS cipher from the key halves and transform the message in the requested
direction. -/
def doXTS (aesNew : Bytes → Except String Block) (args : List Bytes) (decrypt : Bool) :
    Except String (List Bytes) :=
  match args with
  | [key, msg, tweak] =>
    if msg.length % 16 ≠ 0 then .error "XTS received msg, need multiple of 16"
    else if tweak.length ≠ 16 then .error "XTS received tweak, wanted 16"
    else if tweak.drop 8 ≠ List.replicate 8 0 then
      .error "XTS received tweak with invalid structure"
    else do
      let c ← xtsNewCipher aesNew key
      let sectorNum := leNat (tweak.take 8)
      if decrypt then pure [xtsDecrypt c msg sectorNum]
      else pure [xtsEncrypt c msg sectorNum]
  | _ => .error "XTS wrong arg count"

/-- `xtsEncrypt` handler (`AES-XTS/encrypt`). -/
def xtsEncryptOp (aesNew : Bytes → Except String Block) (args : List Bytes) :
    Except String (List Bytes) := doXTS aesNew args false

/-- `xtsDecrypt` handler (`AES-XTS/decrypt`). -/
def xtsDecryptOp (aesNew : Bytes → Except String Block) (args : List Bytes) :
    Except String (List Bytes) := doXTS aesNew args true

/-- HKDF expand blocks (external `golang.org/x/crypto/hkdf` package):
`T(i) = HMAC(prk, T(i-1) || info || byte(i))`, concatenated starting at
counter `i`. -/
def hkdfBlocks (hmac : Bytes → Bytes → Bytes) (prk info prev : Bytes) (i : Nat) :
    Nat → Bytes
  | 0 => []
  | c + 1 =>
    let t := hmac prk (prev ++ info ++ [i % 256])
    t ++ hkdfBlocks hmac prk info t (i + 1) c

/-- HKDF expand: the first `len` bytes of `T(1) || T(2) || ...`. -/
def hkdfExpand (hmac : Bytes → Bytes → Bytes) (prk info : Bytes) (len : Nat) : Bytes :=
  (hkdfBlocks hmac prk info [] 1 ((len + 31) / 32)).take len

/-- Shallow embedding of `hkdfMAC`: require the length argument to be
exactly 4 bytes, build the HKDF stream from (key, salt, info) and read
`length` bytes.  The external `hkdf` reader refuses to produce more than
`255 * 32` bytes; the handler ignores that error, leaving the
zero-initialized output buffer untouched, so the reply is then `length`
zero bytes.  The random stream `r` is the process randomness; this handler
never reads it. -/
def hkdfMAC (hmac : Bytes → Bytes → Bytes) (r : Nat → Nat) (args : List Bytes) :
    Except String (List Bytes) :=
  match args with
  | [key, salt, info, lengthBytes] =>
    if lengthBytes.length ≠ 4 then .error "uint32 length was wrong length"
    else
      let len := leNat lengthBytes
      let prk := hmac salt key
      let ret := if 255 * 32 < len then List.replicate len 0
                 else hkdfExpand hmac prk info len
      .ok [ret]
  | _ => .error "HKDF wrong arg count"

/-- HMAC_DRBG working state: key, value, and reseed counter. -/
structure DRBGState where
  k : Bytes
  v : Bytes
  reseedCounter : Nat
deriving DecidableEq

/-- Modelled from the spec: the standard HMAC_DRBG update procedure of the
HMAC_DRBG engine (`NewHMACDRBG` / `Reseed` / `Generate` are repository
code not present under `src/`). `K = HMAC(K, V || 0x00 || provided)`,
`V = HMAC(K, V)`; when provided data is nonempty, a second round with the
`0x01` separator. -/
def drbgUpdate (hmac : Bytes → Bytes → Bytes) (s : DRBGState) (provided : Bytes) :
    DRBGState :=
  let k1 := hmac s.k (s.v ++ [0] ++ provided)
  let v1 := hmac k1 s.v
  if provided = [] then ⟨k1, v1, s.reseedCounter⟩
  else
    let k2 := hmac k1 (v1 ++ [1] ++ provided)
    let v2 := hmac k2 v1
    ⟨k2, v2, s.reseedCounter⟩

/-- Modelled from the spec: HMAC_DRBG instantiation — `K` all zero bytes,
`V` all `0x01` bytes, update with `entropy || nonce || personalization`,
reseed counter set to 1. -/
def drbgNew (hmac : Bytes → Bytes → Bytes) (entropy nonce personalisation : Bytes) :
    DRBGState :=
  let s0 : DRBGState := ⟨List.replicate 32 0, List.replicate 32 1, 1⟩
  let s1 := drbgUpdate hmac s0 (entropy ++ nonce ++ personalisation)
  ⟨s1.k, s1.v, 1⟩

/-- Modelled from the spec: HMAC_DRBG reseed — update with
`entropy || additionalInput`, reset the reseed counter. -/
def drbgReseed (hmac : Bytes → Bytes → Bytes) (s : DRBGState)
    (entropy additionalInput : Bytes) : DRBGState :=
  let s1 := drbgUpdate hmac s (entropy ++ additionalInput)
  ⟨s1.k, s1.v, 1⟩

/-- The generate fill loop: `V = HMAC(K, V)` repeatedly, concatenating the
values until `need` bytes are available; returns the concatenation and the
final `V`.  (If `hmac` returned empty digests the source loop would never
terminate; that branch returns early and is unreachable for a real HMAC,
whose digests are 32 bytes.) -/
def drbgFill (hmac : Bytes → Bytes → Bytes) (k v : Bytes) (need : Nat) :
    Bytes × Bytes :=
  if h0 : need = 0 then ([], v)
  else
    if h1 : (hmac k v).length = 0 then ([], hmac k v)
    else
      let p := drbgFill hmac k (hmac k v) (need - (hmac k v).length)
      (hmac k v ++ p.1, p.2)
termination_by need
decreasing_by omega

/-- Modelled from the spec: HMAC_DRBG generate — when additional input is
present, fold it in via update; fill the output buffer with successive
`HMAC(K, V)` values; update once more (with the same additional-input
argument, empty or not); increment the reseed counter. -/
def drbgGenerate (hmac : Bytes → Bytes → Bytes) (s : DRBGState) (outLen : Nat)
    (additionalInput : Bytes) : DRBGState × Bytes :=
  let s1 := if additionalInput = [] then s else drbgUpdate hmac s additionalInput
  let p := drbgFill hmac s1.k s1.v outLen
  let s2 := drbgUpdate hmac ⟨s1.k, p.2, s1.reseedCounter⟩ additionalInput
  (⟨s2.k, s2.v, s1.reseedCounter + 1⟩, p.1.take outLen)

/-- One engine call of the call patterns described for the two DRBG
handlers: a reseed or a generate. -/
inductive DRBGCall where
  | rsd (entropy additionalInput : Bytes)
  | gen (additionalInput : Bytes)

/-- Run a sequence of engine calls against a state, collecting each
generate's output in order. -/
def drbgRun (hmac : Bytes → Bytes → Bytes) (outLen : Nat) (s : DRBGState) :
    List DRBGCall → DRBGState × List Bytes
  | [] => (s, [])
  | .rsd e ad :: rest => drbgRun hmac outLen (drbgReseed hmac s e ad) rest
  | .gen ad :: rest =>
    let p := drbgGenerate hmac s outLen ad
    let q := drbgRun hmac outLen p.1 rest
    (q.1, p.2 :: q.2)

/-- Shallow embedding of `hmacDRBGReseed`: instantiate, reseed once, then
generate twice into the same buffer (the second call overwrites the
first); reply with the buffer, i.e. the second generate's output.  The
random stream `r` is the process randomness; this handler never reads it. -/
def hmacDRBGReseed (hmac : Bytes → Bytes → Bytes) (r : Nat → Nat) (args : List Bytes) :
    Except String (List Bytes) :=
  match args with
  | [outLenBytes, entropy, personalisation, reseedAdditionalData, reseedEntropy,
     additionalData1, additionalData2, nonce] =>
    if outLenBytes.length ≠ 4 then .error "uint32 length was wrong length"
    else
      let outLen := leNat outLenBytes
      let s0 := drbgNew hmac entropy nonce personalisation
      let s1 := drbgReseed hmac s0 reseedEntropy reseedAdditionalData
      let p1 := drbgGenerate hmac s1 outLen additionalData1
      let p2 := drbgGenerate hmac p1.1 outLen additionalData2
      .ok [p2.2]
  | _ => .error "hmacDRBG wrong arg count"

/-- Shallow embedding of `hmacDRBGPredictionResistance`: instantiate, then
twice the pair reseed-then-generate, the generates taking no additional
input; reply with the second generate's output.  The random stream `r` is
the process randomness; this handler never reads it. -/
def hmacDRBGPredictionResistance (hmac : Bytes → Bytes → Bytes) (r : Nat → Nat)
    (args : List Bytes) : Except String (List Bytes) :=
  match args with
  | [outLenBytes, entropy, personalisation, additionalData1, entropy1,
     additionalData2, entropy2, nonce] =>
    if outLenBytes.length ≠ 4 then .error "uint32 length was wrong length"
    else
      let outLen := leNat outLenBytes
      let s0 := drbgNew hmac entropy nonce personalisation
      let s1 := drbgReseed hmac s0 entropy1 additionalData1
      let p1 := drbgGenerate hmac s1 outLen []
      let s2 := drbgReseed hmac p1.1 entropy2 additionalData2
      let p2 := drbgGenerate hmac s2 outLen []
      .ok [p2.2]
  | _ => .error "hmacDRBG wrong arg count"

/-- The lengths of a successful reply's arguments (empty on failure). -/
def replyShape (res : Except String (List Bytes)) : List Nat :=
  match res with
  | .ok l => l.map List.length
  | .error _ => []

/-- The per-argument length checks of the read loop, in index order: the
first argument (the operation name) may not exceed 30 bytes; every
argument may not exceed 1 MiB. -/
def checkArgLens : Nat → List Nat → Except String Unit
  | _, [] => .ok ()
  | i, l :: rest =>
    if i = 0 ∧ 30 < l then .error "Operation name length exceeded limit"
    else if 1048576 < l then .error "Operation argument length exceeded limit"
    else checkArgLens (i + 1) rest

/-- Cut the body bytes into the arguments, one per declared length. -/
def splitArgs : List Nat → List Nat → List Bytes
  | [], _ => []
  | l :: rest, data => data.take l :: splitArgs rest (data.drop l)

/-- One record read of `do`: read the 8-byte prefix (argument count plus
first length), validate the count, read the rest of the length header,
validate each length, then read the concatenated argument payloads.
Returns the parsed arguments and the unconsumed stream; `io.ReadFull`
failures (stream too short) and limit violations are the error cases, in
the order the source checks them. -/
def readRecord (s : List Nat) : Except String (List Bytes × List Nat) :=
  if s.length < 8 then .error "read failed"
  else
    let numArgs := leNat (s.take 4)
    if numArgs = 0 then .error "Invalid, zero-argument operation requested"
    else if 9 < numArgs then .error "Operation requested with too many args"
    else if s.length < 4 + 4 * numArgs then .error "read failed"
    else
      let lens := (List.range numArgs).map (fun i => leNat ((s.drop (4 + 4 * i)).take 4))
      match checkArgLens 0 lens with
      | .error e => .error e
      | .ok _ =>
        let body := s.drop (4 + 4 * numArgs)
        if body.length < lens.sum then .error "read failed"
        else .ok (splitArgs lens body, body.drop lens.sum)

/-- A handler as stored in the dispatch table. -/
abbrev Handler := List Bytes → Except String (List Bytes)

/-- Dispatch-table lookup by operation name. -/
def findHandler : List (Bytes × Handler) → Bytes → Option Handler
  | [], _ => none
  | (n, h) :: rest, name => if name = n then some h else findHandler rest name

/-- The `do` read loop, with fuel bounding the number of records
processed: read a record, dispatch on its first argument, hand the
remaining arguments to the handler, collect its reply, and continue; any
read, dispatch, or handler error ends the loop with that error and no
reply for the offending record. -/
def runLoop (table : List (Bytes × Handler)) : Nat → List Nat → List (List Bytes) × Option String
  | 0, _ => ([], none)
  | fuel + 1, s =>
    match readRecord s with
    | .error e => ([], some e)
    | .ok (args, rest) =>
      match findHandler table (args.headD []) with
      | none => ([], some "unknown operation")
      | some h =>
        match h args.tail with
        | .error e => ([], some e)
        | .ok reply =>
          let q := runLoop table fuel rest
          (reply :: q.1, q.2)

/-- The process exit status `main` produces for a finished loop: nonzero
exactly when `do` returned an error. -/
def exitCodeOf (res : List (List Bytes) × Option String) : Nat :=
  match res.2 with
  | some _ => 1
  | none => 0

/-- Success test for a handler outcome that can panic. -/
def GoResult.isOk {α : Type} : GoResult α → Bool
  | .ok _ => true
  | _ => false

/-- Error test for an `Except` value. -/
def isErr {α : Type} (r : Except String α) : Bool :=
  match r with
  | .error _ => true
  | .ok _ => false

/-- Whether an allocation event is the derived-output buffer. -/
def isOutBuf : AllocEvent → Bool
  | .outBuf _ => true
  | .keyBuf _ => false

/-- The argument count a record header declares. -/
def recNumArgs (s : List Nat) : Nat := leNat (s.take 4)

/-- The argument lengths a record header declares. -/
def recArgLens (s : List Nat) : List Nat :=
  (List.range (recNumArgs s)).map (fun i => leNat ((s.drop (4 + 4 * i)).take 4))

instance {ε α : Type} [DecidableEq ε] [DecidableEq α] : DecidableEq (Except ε α) := fun a b =>
  match a, b with
  | .ok x, .ok y =>
    if h : x = y then .isTrue (by rw [h]) else .isFalse (by intro hh; cases hh; exact h rfl)
  | .error x, .error y =>
    if h : x = y then .isTrue (by rw [h]) else .isFalse (by intro hh; cases hh; exact h rfl)
  | .ok _, .error _ => .isFalse (by intro hh; cases hh)
  | .error _, .ok _ => .isFalse (by intro hh; cases hh)

/-- A concrete stand-in for the abstract HMAC collaborator, used to
instantiate theorems on concrete inputs: every digest is 32 bytes of 1. -/
def hmacC : Bytes → Bytes → Bytes := fun _ _ => List.replicate 32 1

/-- A concrete process random stream: all zero bytes. -/
def rC : Nat → Nat := fun _ => 0

/-- A second concrete process random stream, different from `rC`, used to
instantiate randomness-independence statements. -/
def rC2 : Nat → Nat := fun _ => 1

/-- A concrete stand-in for `aes.NewCipher`, used to instantiate theorems
on concrete inputs: accepts 16- or 32-byte keys and reverses each block
(a length-preserving involution, so decryption inverts encryption). -/
def aesNewC : Bytes → Except String Block :=
  fun k => if k.length = 16 ∨ k.length = 32 then .ok ⟨List.reverse, List.reverse⟩
           else .error "invalid key size"

/-- A well-framed `KDF-counter` wire record whose first trailing argument
(the 32-bit output length) is empty: 6 arguments, name within the 30-byte
limit, every argument within the 1 MiB limit. -/
def shortLenStream : List Nat :=
  [6,0,0,0, 11,0,0,0, 0,0,0,0, 13,0,0,0, 17,0,0,0, 0,0,0,0, 4,0,0,0] ++
  strBytes "KDF-counter" ++ strBytes "HMAC-SHA2-256" ++ strBytes "before fixed data" ++
  [32,0,0,0]

theorem leNat_lt (bs : Bytes) : leNat bs < 256 ^ bs.length := by
  induction bs with
  | nil => simp [leNat]
  | cons b rest ih =>
    have hb : b % 256 < 256 := Nat.mod_lt _ (by norm_num)
    have hp : 256 ^ (b :: rest).length = 256 * 256 ^ rest.length := by
      simp [List.length_cons, pow_succ]; ring
    simp only [leNat, List.foldr] at *
    omega

theorem leUint32_lt {bs : Bytes} {v : Nat} (h : leUint32 bs = some v) :
    v < 4294967296 := by
  unfold leUint32 at h
  split at h
  · exact absurd h (by simp)
  · have hv : v = leNat (bs.take 4) := by injection h; omega
    have h1 := leNat_lt (bs.take 4)
    have h2 : (bs.take 4).length ≤ 4 := by simp
    have h3 : (256 : Nat) ^ (bs.take 4).length ≤ 256 ^ 4 :=
      Nat.pow_le_pow_right (by norm_num) h2
    subst hv
    calc leNat (bs.take 4) < 256 ^ (bs.take 4).length := h1
      _ ≤ 256 ^ 4 := h3
      _ = 4294967296 := by norm_num

theorem randTake_length (r : Nat → Nat) (s n : Nat) : (randTake r s n).length = n := by
  simp [randTake]

theorem kdfBlocks_length (hmac : Bytes → Bytes → Bytes)
    (hlen : ∀ k m, (hmac k m).length = 32) (key fd : Bytes) :
    ∀ n, (kdfBlocks hmac key fd n).length = 32 * n := by
  intro n
  induction n with
  | zero => simp [kdfBlocks]
  | succ m ih => simp [kdfBlocks, ih, hlen]; ring

/-- C1: for a valid KDF-counter request (PRF `HMAC-SHA2-256`, counter
location `before fixed data`, counter length 32, non-overflowing
`outputBytes`), the derived output in the reply is exactly the first
`outputBytes` bytes of `HMAC(key, BE32(1) ++ fixedData) ++ ... ++
HMAC(key, BE32(n) ++ fixedData)` with `n = ceil(outputBytes / 32)`, where
`key` and `fixedData` are the values echoed in the reply; its length is
exactly `outputBytes`. -/
theorem kdfCounter_derived_output (hmac : Bytes → Bytes → Bytes) (r : Nat → Nat)
    (hlen : ∀ k m, (hmac k m).length = 32)
    (ob32 key cb32 : Bytes) (outputBytes : Nat)
    (hob : leUint32 ob32 = some outputBytes)
    (hcb : leUint32 cb32 = some 32)
    (hov : outputBytes + 31 < 4294967296) :
    ((kdfCounter hmac r [ob32, kdfPRFName, kdfCounterLocName, key, cb32]).1).isOk = true ∧
    ∀ k fd out,
      (kdfCounter hmac r [ob32, kdfPRFName, kdfCounterLocName, key, cb32]).1 = .ok [k, fd, out] →
      out = (kdfBlocks hmac k fd ((outputBytes + 31) / 32)).take outputBytes ∧
      out.length = outputBytes := by
  have hmod : (outputBytes + 31) % 4294967296 = outputBytes + 31 := Nat.mod_eq_of_lt hov
  have hlt : ¬ ((outputBytes + 31) % 4294967296 < outputBytes) := by omega
  constructor
  · simp [kdfCounter, hob, hcb, hlt, GoResult.isOk]
  · intro k fd out h
    simp only [kdfCounter, hob, hcb, hlt, if_false, if_neg, ne_eq, not_true_eq_false,
      ite_false, ite_true, not_false_eq_true] at h
    simp [hlt] at h
    obtain ⟨hk, hfd, hout⟩ := h
    subst hk
    subst hfd
    subst hout
    constructor
    · rw [hmod]
    · rw [hmod, List.length_take, kdfBlocks_length hmac hlen _ _ _]
      omega

/-- Witness for C1: a concrete valid request with `outputBytes = 40`,
key `[9]`: the handler succeeds and the derived output is the 40-byte
truncation of two HMAC digests. -/
theorem kdfCounter_derived_output_witness :
    ((kdfCounter hmacC rC [[40,0,0,0], kdfPRFName, kdfCounterLocName, [9], [32,0,0,0]]).1).isOk = true ∧
    (List.replicate 40 1 =
      (kdfBlocks hmacC [9] (List.replicate 8 0) ((40 + 31) / 32)).take 40 ∧
     (List.replicate 40 1 : Bytes).length = 40) :=
  ⟨(kdfCounter_derived_output hmacC rC (fun _ _ => by simp [hmacC])
      [40,0,0,0] [9] [32,0,0,0] 40 (by decide) (by decide) (by norm_num)).1,
   (kdfCounter_derived_output hmacC rC (fun _ _ => by simp [hmacC])
      [40,0,0,0] [9] [32,0,0,0] 40 (by decide) (by decide) (by norm_num)).2
     [9] (List.replicate 8 0) (List.replicate 40 1) (by decide)⟩

/-- Counterexample for C3: with `outputBytes = 32` (so `n = ceil(32/32) = 1`)
and an empty key, the fixed data echoed in the reply has 8 bytes, not
`n = 1` bytes: the handler always generates exactly 8 fixed-data bytes. -/
theorem kdfCounter_fixedData_counterexample :
    (kdfCounter hmacC rC [[32,0,0,0], kdfPRFName, kdfCounterLocName, [], [32,0,0,0]]).1 =
      .ok [List.replicate 32 0, List.replicate 8 0, List.replicate 32 1] ∧
    ¬ ((List.replicate 8 0 : Bytes).length = (32 + 31) / 32) := by decide

/-- C3 (amended): for every valid KDF-counter request the reply is the
triple (key, fixedData, derivedOutput); an empty supplied key is replaced
by a fresh random 32-byte key, echoed as the first reply argument, and the
echoed fixedData consists of 8 freshly generated random bytes. -/
theorem kdfCounter_reply_structure (hmac : Bytes → Bytes → Bytes) (r : Nat → Nat)
    (ob32 key cb32 : Bytes) (outputBytes : Nat)
    (hob : leUint32 ob32 = some outputBytes)
    (hcb : leUint32 cb32 = some 32)
    (hov : outputBytes + 31 < 4294967296) :
    (kdfCounter hmac r [ob32, kdfPRFName, kdfCounterLocName, key, cb32]).1 =
      .ok [if key = [] then randTake r 0 32 else key,
           randTake r (if key = [] then 32 else 0) 8,
           (kdfBlocks hmac (if key = [] then randTake r 0 32 else key)
             (randTake r (if key = [] then 32 else 0) 8)
             ((outputBytes + 31) / 32)).take outputBytes] ∧
    (randTake r 0 32).length = 32 ∧
    (randTake r (if key = [] then 32 else 0) 8).length = 8 := by
  have hmod : (outputBytes + 31) % 4294967296 = outputBytes + 31 := Nat.mod_eq_of_lt hov
  have hlt : ¬ ((outputBytes + 31) % 4294967296 < outputBytes) := by omega
  exact ⟨by simp [kdfCounter, hob, hcb, hlt, hmod],
         randTake_length r 0 32, randTake_length r _ 8⟩

/-- Witness for C3 (amended): concrete empty-key request, `outputBytes = 32`. -/
theorem kdfCounter_reply_structure_witness :
    (kdfCounter hmacC rC [[32,0,0,0], kdfPRFName, kdfCounterLocName, [], [32,0,0,0]]).1 =
      .ok [if ([] : Bytes) = [] then randTake rC 0 32 else [],
           randTake rC (if ([] : Bytes) = [] then 32 else 0) 8,
           (kdfBlocks hmacC (if ([] : Bytes) = [] then randTake rC 0 32 else [])
             (randTake rC (if ([] : Bytes) = [] then 32 else 0) 8)
             ((32 + 31) / 32)).take 32] ∧
    (randTake rC 0 32).length = 32 ∧
    (randTake rC (if ([] : Bytes) = [] then 32 else 0) 8).length = 8 :=
  kdfCounter_reply_structure hmacC rC [32,0,0,0] [] [32,0,0,0] 32
    (by decide) (by decide) (by norm_num)

/-- Counterexample for C4: with `outputBytes = 4294967295` and an empty
supplied key, the handler does fail, but a 32-byte key-buffer allocation
(and a read of the random source) happens before the overflow check, so
the failure is not detected before any allocation occurs. -/
theorem kdfCounter_overflow_counterexample :
    kdfCounter hmacC rC [[255,255,255,255], kdfPRFName, kdfCounterLocName, [], [32,0,0,0]] =
      (.errored "KDF received excessive output length", [.keyBuf 32]) ∧
    ([AllocEvent.keyBuf 32] : List AllocEvent) ≠ [] := by decide

/-- C4 (amended): for every KDF-counter request whose `outputBytes + 31`
overflows 32 bits, the handler fails with an error and the derived-output
buffer is never allocated; when the supplied key is empty, a 32-byte key
buffer is still allocated (and the random source read) before the failure
is detected. -/
theorem kdfCounter_overflow_rejected (hmac : Bytes → Bytes → Bytes) (r : Nat → Nat)
    (ob32 key cb32 : Bytes) (outputBytes : Nat)
    (hob : leUint32 ob32 = some outputBytes)
    (hcb : leUint32 cb32 = some 32)
    (hbig : 4294967265 ≤ outputBytes) :
    (kdfCounter hmac r [ob32, kdfPRFName, kdfCounterLocName, key, cb32]).1 =
      .errored "KDF received excessive output length" ∧
    ((kdfCounter hmac r [ob32, kdfPRFName, kdfCounterLocName, key, cb32]).2).all
      (fun e => ! isOutBuf e) = true := by
  have hv := leUint32_lt hob
  have hlt : (outputBytes + 31) % 4294967296 < outputBytes := by omega
  by_cases hk : key = [] <;>
    simp [kdfCounter, hob, hcb, hlt, hk, isOutBuf]

/-- Witness for C4 (amended): concrete overflowing request with a
nonempty key. -/
theorem kdfCounter_overflow_rejected_witness :
    (kdfCounter hmacC rC [[255,255,255,255], kdfPRFName, kdfCounterLocName, [9], [32,0,0,0]]).1 =
      .errored "KDF received excessive output length" ∧
    ((kdfCounter hmacC rC [[255,255,255,255], kdfPRFName, kdfCounterLocName, [9], [32,0,0,0]]).2).all
      (fun e => ! isOutBuf e) = true :=
  kdfCounter_overflow_rejected hmacC rC [255,255,255,255] [9] [32,0,0,0] 4294967295
    (by decide) (by decide) (by norm_num)

/-- C10: a well-framed `KDF-counter` record (it passes all channel limits
and parses into 6 arguments) whose first trailing argument is empty makes
the handler panic on the unchecked 32-bit read, as does one whose fifth
trailing argument has fewer than 4 bytes; the HKDF and hmacDRBG handlers
instead reject a length argument that is not exactly 4 bytes with an
error. -/
theorem kdfCounter_short_length_panics :
    readRecord shortLenStream =
      .ok ([strBytes "KDF-counter", [], kdfPRFName, kdfCounterLocName, [], [32,0,0,0]], []) ∧
    kdfCounter hmacC rC [[], kdfPRFName, kdfCounterLocName, [], [32,0,0,0]] = (.panicked, []) ∧
    kdfCounter hmacC rC [[32,0,0,0], kdfPRFName, kdfCounterLocName, [], [32,0]] = (.panicked, []) ∧
    hkdfMAC hmacC rC [[], [], [], [7,0,0]] = .error "uint32 length was wrong length" ∧
    hmacDRBGReseed hmacC rC [[7,0,0], [], [], [], [], [], [], []] =
      .error "uint32 length was wrong length" := by decide

theorem xorB_length (a b : Bytes) : (xorB a b).length = min a.length b.length := by
  simp [xorB]

theorem xorB_xorB (a b : Bytes) (h : a.length = b.length) : xorB (xorB a b) b = a := by
  induction a generalizing b with
  | nil => simp [xorB]
  | cons x rest ih =>
    cases b with
    | nil => simp at h
    | cons y rb =>
      have h2 : rest.length = rb.length := by simpa using h
      show ((x ^^^ y) ^^^ y) :: xorB (xorB rest rb) rb = x :: rest
      rw [Nat.xor_cancel_right, ih rb h2]

theorem mul2Aux_length (t : Bytes) : ∀ c, ((mul2Aux t c).1).length = t.length := by
  induction t with
  | nil => simp [mul2Aux]
  | cons b rest ih => intro c; simp [mul2Aux, ih]

theorem mul2_length (t : Bytes) : (mul2 t).length = t.length := by
  have h := mul2Aux_length t 0
  unfold mul2
  split
  · cases hm : (mul2Aux t 0).1 with
    | nil => rw [hm] at h; simpa [hm] using h
    | cons x rest => rw [hm] at h; simpa [hm] using h
  · exact h

theorem chunks16_flatten (msg : Bytes) : (chunks16 msg).flatten = msg := by
  induction msg using chunks16.induct with
  | case1 => rw [chunks16]; simp
  | case2 m hm ih => rw [chunks16, dif_neg hm]; simp [ih]

theorem chunks16_length : ∀ msg : Bytes, msg.length % 16 = 0 →
    ∀ c ∈ chunks16 msg, c.length = 16 := by
  intro msg
  induction msg using chunks16.induct with
  | case1 => intro _ c hc; rw [chunks16] at hc; simp at hc
  | case2 m hm ih =>
    intro h c hc
    have hml : m.length ≠ 0 := fun h0 => hm (List.length_eq_zero.mp h0)
    rw [chunks16, dif_neg hm] at hc
    rcases List.mem_cons.mp hc with rfl | hc2
    · rw [List.length_take]; omega
    · exact ih (by rw [List.length_drop]; omega) c hc2

theorem chunks16_of_flatten : ∀ l : List Bytes, (∀ c ∈ l, c.length = 16) →
    chunks16 l.flatten = l := by
  intro l
  induction l with
  | nil => intro _; rw [chunks16]; simp
  | cons c rest ih =>
    intro h
    have hc : c.length = 16 := h c (by simp)
    have hcne : c ≠ [] := fun h0 => by simp [h0] at hc
    have hne2 : ¬(c ++ rest.flatten = []) := by
      simp only [ne_eq, List.append_eq_nil]
      intro ⟨h1, _⟩; exact hcne h1
    rw [List.flatten_cons, chunks16, dif_neg hne2]
    have h1 : (c ++ rest.flatten).take 16 = c := by rw [← hc, List.take_left]
    have h2 : (c ++ rest.flatten).drop 16 = rest.flatten := by rw [← hc, List.drop_left]
    rw [h1, h2, ih (fun d hd => h d (by simp [hd]))]

theorem flatten_len_16 : ∀ l : List Bytes, (∀ c ∈ l, c.length = 16) →
    l.flatten.length % 16 = 0 := by
  intro l
  induction l with
  | nil => simp
  | cons c rest ih =>
    intro h
    have hc : c.length = 16 := h c (by simp)
    have hr := ih (fun d hd => h d (by simp [hd]))
    simp only [List.flatten_cons, List.length_append, hc]
    omega

theorem xtsProcessChunks_mem_length (f : Bytes → Bytes)
    (hf : ∀ b, b.length = 16 → (f b).length = 16) :
    ∀ (l : List Bytes) (t : Bytes), (∀ c ∈ l, c.length = 16) → t.length = 16 →
      ∀ c ∈ xtsProcessChunks f l t, c.length = 16 := by
  intro l
  induction l with
  | nil => intro t _ _ c hc; simp [xtsProcessChunks] at hc
  | cons b rest ih =>
    intro t hl ht c hc
    simp only [xtsProcessChunks, List.mem_cons] at hc
    rcases hc with rfl | hc
    · have hb : b.length = 16 := hl b (by simp)
      have h1 : (xorB b t).length = 16 := by rw [xorB_length, hb, ht]; simp
      have h2 := hf _ h1
      rw [xorB_length, h2, ht]; simp
    · exact ih (mul2 t) (fun d hd => hl d (by simp [hd])) (by rw [mul2_length, ht]) c hc

theorem xtsProcessChunks_roundtrip (enc dec : Bytes → Bytes)
    (hencl : ∀ b, b.length = 16 → (enc b).length = 16)
    (hdec : ∀ b, b.length = 16 → dec (enc b) = b) :
    ∀ (l : List Bytes) (t : Bytes), (∀ c ∈ l, c.length = 16) → t.length = 16 →
      xtsProcessChunks dec (xtsProcessChunks enc l t) t = l := by
  intro l
  induction l with
  | nil => intro t _ _; simp [xtsProcessChunks]
  | cons b rest ih =>
    intro t hl ht
    have hb : b.length = 16 := hl b (by simp)
    have h1 : (xorB b t).length = 16 := by rw [xorB_length, hb, ht]; simp
    have h2 : (enc (xorB b t)).length = 16 := hencl _ h1
    simp only [xtsProcessChunks]
    congr 1
    · rw [xorB_xorB _ _ (by rw [h2, ht]), hdec _ h1, xorB_xorB _ _ (by rw [hb, ht])]
    · exact ih (mul2 t) (fun d hd => hl d (by simp [hd])) (by rw [mul2_length, ht])

theorem xtsTweakInit_length (c : XTSCipher) (sectorNum : Nat)
    (h2l : ∀ b, b.length = 16 → (c.k2.enc b).length = 16) :
    (xtsTweakInit c sectorNum).length = 16 := by
  apply h2l; simp [lePut64]

theorem xts_mode_roundtrip (c : XTSCipher) (msg : Bytes) (sectorNum : Nat)
    (h1l : ∀ b, b.length = 16 → (c.k1.enc b).length = 16)
    (h1inv : ∀ b, b.length = 16 → c.k1.dec (c.k1.enc b) = b)
    (h2l : ∀ b, b.length = 16 → (c.k2.enc b).length = 16)
    (hmsg : msg.length % 16 = 0) :
    xtsDecrypt c (xtsEncrypt c msg sectorNum) sectorNum = msg := by
  have htw := xtsTweakInit_length c sectorNum h2l
  have hchunks := chunks16_length msg hmsg
  unfold xtsEncrypt xtsDecrypt
  rw [chunks16_of_flatten _ (xtsProcessChunks_mem_length c.k1.enc h1l (chunks16 msg) _ hchunks htw)]
  rw [xtsProcessChunks_roundtrip c.k1.enc c.k1.dec h1l h1inv _ _ hchunks htw]
  exact chunks16_flatten msg

theorem xtsEncrypt_length_multiple (c : XTSCipher) (msg : Bytes) (sectorNum : Nat)
    (h1l : ∀ b, b.length = 16 → (c.k1.enc b).length = 16)
    (h2l : ∀ b, b.length = 16 → (c.k2.enc b).length = 16)
    (hmsg : msg.length % 16 = 0) :
    (xtsEncrypt c msg sectorNum).length % 16 = 0 := by
  have htw := xtsTweakInit_length c sectorNum h2l
  exact flatten_len_16 _
    (xtsProcessChunks_mem_length c.k1.enc h1l (chunks16 msg) _ (chunks16_length msg hmsg) htw)

theorem xtsNewCipher_ok (aesNew : Bytes → Except String Block) (key : Bytes)
    (b1 b2 : Block)
    (h1 : aesNew (key.take (key.length / 2)) = .ok b1)
    (h2 : aesNew (key.drop (key.length / 2)) = .ok b2) :
    xtsNewCipher aesNew key = .ok ⟨b1, b2⟩ := by
  simp only [xtsNewCipher, h1, h2]
  rfl

theorem doXTS_ok_eq (aesNew : Bytes → Except String Block) (key msg tweak : Bytes)
    (d : Bool) (c : XTSCipher)
    (hmsg : msg.length % 16 = 0) (htw : tweak.length = 16)
    (htz : tweak.drop 8 = List.replicate 8 0)
    (hc : xtsNewCipher aesNew key = .ok c) :
    doXTS aesNew [key, msg, tweak] d =
      .ok [if d then xtsDecrypt c msg (leNat (tweak.take 8))
           else xtsEncrypt c msg (leNat (tweak.take 8))] := by
  simp only [doXTS]
  rw [if_neg (by simp [hmsg]), if_neg (by simp [htw]), if_neg (by simp [htz]), hc]
  cases d <;> rfl

/-- C2: for every key of 32 or 64 bytes, message a whole number of
16-byte blocks, and 16-byte tweak with zero upper half, decrypting the
encryption of the message under the same key and tweak returns the
message, provided the block ciphers built from the two key halves are
length-preserving inverses on 16-byte blocks (as AES is). -/
theorem doXTS_roundtrip (aesNew : Bytes → Except String Block) (key msg tweak : Bytes)
    (b1 b2 : Block)
    (hkey : key.length = 32 ∨ key.length = 64)
    (h1 : aesNew (key.take (key.length / 2)) = .ok b1)
    (h2 : aesNew (key.drop (key.length / 2)) = .ok b2)
    (hb1l : ∀ b, b.length = 16 → (b1.enc b).length = 16)
    (hb1inv : ∀ b, b.length = 16 → b1.dec (b1.enc b) = b)
    (hb2l : ∀ b, b.length = 16 → (b2.enc b).length = 16)
    (hmsg : msg.length % 16 = 0)
    (htw : tweak.length = 16)
    (htz : tweak.drop 8 = List.replicate 8 0) :
    doXTS aesNew [key, msg, tweak] false =
      .ok [xtsEncrypt ⟨b1, b2⟩ msg (leNat (tweak.take 8))] ∧
    doXTS aesNew [key, xtsEncrypt ⟨b1, b2⟩ msg (leNat (tweak.take 8)), tweak] true =
      .ok [msg] := by
  have hcip := xtsNewCipher_ok aesNew key b1 b2 h1 h2
  have hctm : (xtsEncrypt ⟨b1, b2⟩ msg (leNat (tweak.take 8))).length % 16 = 0 :=
    xtsEncrypt_length_multiple ⟨b1, b2⟩ msg _ hb1l hb2l hmsg
  constructor
  · simpa using doXTS_ok_eq aesNew key msg tweak false ⟨b1, b2⟩ hmsg htw htz hcip
  · rw [doXTS_ok_eq aesNew key _ tweak true ⟨b1, b2⟩ hctm htw htz hcip]
    simp only [if_true]
    rw [xts_mode_roundtrip ⟨b1, b2⟩ msg _ hb1l hb1inv hb2l hmsg]

/-- Witness for C2: the concrete block-cipher family `aesNewC`
(length-preserving involution) on a 32-byte key, a 16-byte message and
tweak with sector number 3: encrypt then decrypt returns the message. -/
theorem doXTS_roundtrip_witness :
    doXTS aesNewC [List.replicate 32 0, List.replicate 16 5, 3 :: List.replicate 15 0] false =
      .ok [xtsEncrypt ⟨⟨List.reverse, List.reverse⟩, ⟨List.reverse, List.reverse⟩⟩
        (List.replicate 16 5) (leNat ((3 :: List.replicate 15 0).take 8))] ∧
    doXTS aesNewC [List.replicate 32 0,
        xtsEncrypt ⟨⟨List.reverse, List.reverse⟩, ⟨List.reverse, List.reverse⟩⟩
          (List.replicate 16 5) (leNat ((3 :: List.replicate 15 0).take 8)),
        3 :: List.replicate 15 0] true =
      .ok [List.replicate 16 5] :=
  doXTS_roundtrip aesNewC (List.replicate 32 0) (List.replicate 16 5)
    (3 :: List.replicate 15 0) ⟨List.reverse, List.reverse⟩ ⟨List.reverse, List.reverse⟩
    (Or.inl (by simp)) (by rfl) (by rfl)
    (fun b hb => by simpa using hb) (fun b _ => by simp) (fun b hb => by simpa using hb)
    (by simp) (by simp) (by simp)

theorem xtsEncrypt_nil (c : XTSCipher) (s : Nat) : xtsEncrypt c [] s = [] := by
  have hch : chunks16 [] = [] := by rw [chunks16]; simp
  simp [xtsEncrypt, hch, xtsProcessChunks]

/-- Counterexample for C7: an empty message passes the `len(msg)%16 != 0`
check even though its length is not a *nonzero* multiple of 16; with a
valid key and tweak the handler succeeds and writes a reply rather than
failing. -/
theorem doXTS_empty_msg_counterexample :
    doXTS aesNewC [List.replicate 32 0, [], 3 :: List.replicate 15 0] false = .ok [[]] ∧
    isErr (doXTS aesNewC [List.replicate 32 0, [], 3 :: List.replicate 15 0] false) = false := by
  have h : doXTS aesNewC [List.replicate 32 0, [], 3 :: List.replicate 15 0] false = .ok [[]] := by
    rw [doXTS_ok_eq aesNewC (List.replicate 32 0) [] (3 :: List.replicate 15 0) false
      ⟨⟨List.reverse, List.reverse⟩, ⟨List.reverse, List.reverse⟩⟩
      (by simp) (by simp) (by simp) (by rfl)]
    rw [if_neg (by simp), xtsEncrypt_nil]
  exact ⟨h, by rw [h]; rfl⟩

/-- C7 (amended): a message whose length is not a multiple of 16 (the
empty message, of length 0, is accepted), a tweak that is not exactly 16
bytes, or a tweak with a nonzero byte among its upper 8 are each rejected
with an error and no reply; for a valid tweak the message is transformed
with sector number equal to the little-endian 64-bit value of the tweak's
lower 8 bytes. -/
theorem doXTS_validation (aesNew : Bytes → Except String Block) (key msg tweak : Bytes)
    (d : Bool) :
    (msg.length % 16 ≠ 0 →
      doXTS aesNew [key, msg, tweak] d = .error "XTS received msg, need multiple of 16") ∧
    (msg.length % 16 = 0 → tweak.length ≠ 16 →
      doXTS aesNew [key, msg, tweak] d = .error "XTS received tweak, wanted 16") ∧
    (msg.length % 16 = 0 → tweak.length = 16 → tweak.drop 8 ≠ List.replicate 8 0 →
      doXTS aesNew [key, msg, tweak] d = .error "XTS received tweak with invalid structure") ∧
    (msg.length % 16 = 0 → tweak.length = 16 → tweak.drop 8 = List.replicate 8 0 →
      ∀ c, xtsNewCipher aesNew key = .ok c →
        doXTS aesNew [key, msg, tweak] d =
          .ok [if d then xtsDecrypt c msg (leNat (tweak.take 8))
               else xtsEncrypt c msg (leNat (tweak.take 8))]) := by
  refine ⟨?_, ?_, ?_, ?_⟩
  · intro h; simp only [doXTS]; rw [if_pos h]
  · intro h1 h2; simp only [doXTS]; rw [if_neg (by simp [h1]), if_pos h2]
  · intro h1 h2 h3
    simp only [doXTS]
    rw [if_neg (by simp [h1]), if_neg (by simp [h2]), if_pos h3]
  · intro h1 h2 h3 c hc; exact doXTS_ok_eq aesNew key msg tweak d c h1 h2 h3 hc

/-- Witness for C7 (amended): a 1-byte message is rejected; a valid
16-byte message with tweak `[3,0,...,0]` is transformed with sector
number 3. -/
theorem doXTS_validation_witness :
    doXTS aesNewC [List.replicate 32 0, [5], 3 :: List.replicate 15 0] false =
      .error "XTS received msg, need multiple of 16" ∧
    doXTS aesNewC [List.replicate 32 0, List.replicate 16 5, 3 :: List.replicate 15 0] false =
      .ok [if false then
             xtsDecrypt ⟨⟨List.reverse, List.reverse⟩, ⟨List.reverse, List.reverse⟩⟩
               (List.replicate 16 5) (leNat ((3 :: List.replicate 15 0).take 8))
           else
             xtsEncrypt ⟨⟨List.reverse, List.reverse⟩, ⟨List.reverse, List.reverse⟩⟩
               (List.replicate 16 5) (leNat ((3 :: List.replicate 15 0).take 8))] :=
  ⟨(doXTS_validation aesNewC (List.replicate 32 0) [5] (3 :: List.replicate 15 0) false).1
     (by simp),
   (doXTS_validation aesNewC (List.replicate 32 0) (List.replicate 16 5)
       (3 :: List.replicate 15 0) false).2.2.2
     (by simp) (by simp) (by simp) _ (by rfl)⟩

theorem hkdfBlocks_length (hmac : Bytes → Bytes → Bytes)
    (hlen : ∀ k m, (hmac k m).length = 32) (prk info : Bytes) :
    ∀ (c : Nat) (prev : Bytes) (i : Nat),
      (hkdfBlocks hmac prk info prev i c).length = 32 * c := by
  intro c
  induction c with
  | zero => intro prev i; simp [hkdfBlocks]
  | succ m ih =>
    intro prev i
    simp only [hkdfBlocks, List.length_append, hlen, ih]
    ring

/-- C9: for every HKDF/SHA2-256 request with a 4-byte length argument,
the reply does not depend on the process random stream, its single
argument has exactly the requested number of bytes, and a requested
length of 0 yields an empty result. -/
theorem hkdfMAC_spec (hmac : Bytes → Bytes → Bytes)
    (hlen : ∀ k m, (hmac k m).length = 32) (r1 r2 : Nat → Nat)
    (key salt info lb : Bytes) (h4 : lb.length = 4) :
    hkdfMAC hmac r1 [key, salt, info, lb] = hkdfMAC hmac r2 [key, salt, info, lb] ∧
    replyShape (hkdfMAC hmac r1 [key, salt, info, lb]) = [leNat lb] ∧
    (leNat lb = 0 → hkdfMAC hmac r1 [key, salt, info, lb] = .ok [[]]) := by
  have hmain : hkdfMAC hmac r1 [key, salt, info, lb] =
      .ok [if 255 * 32 < leNat lb then List.replicate (leNat lb) 0
           else hkdfExpand hmac (hmac salt key) info (leNat lb)] := by
    simp only [hkdfMAC]
    rw [if_neg (by simp [h4])]
  refine ⟨rfl, ?_, ?_⟩
  · rw [hmain]
    simp only [replyShape, List.map_cons, List.map_nil]
    congr 1
    split
    · simp
    · rw [hkdfExpand, List.length_take, hkdfBlocks_length hmac hlen]
      omega
  · intro h0
    rw [hmain, h0]
    rw [if_neg (by omega)]
    simp [hkdfExpand]

/-- Witness for C9: a concrete request with requested length 0 under two
different random streams. -/
theorem hkdfMAC_spec_witness :
    hkdfMAC hmacC rC [[1], [2], [3], [0,0,0,0]] = hkdfMAC hmacC rC2 [[1], [2], [3], [0,0,0,0]] ∧
    replyShape (hkdfMAC hmacC rC [[1], [2], [3], [0,0,0,0]]) = [leNat [0,0,0,0]] ∧
    hkdfMAC hmacC rC [[1], [2], [3], [0,0,0,0]] = .ok [[]] :=
  ⟨(hkdfMAC_spec hmacC (fun _ _ => by simp [hmacC]) rC rC2 [1] [2] [3] [0,0,0,0] (by decide)).1,
   (hkdfMAC_spec hmacC (fun _ _ => by simp [hmacC]) rC rC2 [1] [2] [3] [0,0,0,0] (by decide)).2.1,
   (hkdfMAC_spec hmacC (fun _ _ => by simp [hmacC]) rC rC2 [1] [2] [3] [0,0,0,0] (by decide)).2.2
     (by decide)⟩

/-- C5: the reseed handler drives the engine as Instantiate, one Reseed,
then two consecutive Generates with independent additional data; the
prediction-resistance handler drives it as Instantiate, then
Reseed/Generate, Reseed/Generate with no additional input on either
Generate; in both, the single reply argument is exactly the output of the
second (last) Generate of the call pattern. -/
theorem hmacDRBG_call_pattern (hmac : Bytes → Bytes → Bytes) (r : Nat → Nat)
    (outLenB e p rad re ad1 ad2 e1 e2 nonce : Bytes)
    (h4 : outLenB.length = 4) :
    hmacDRBGReseed hmac r [outLenB, e, p, rad, re, ad1, ad2, nonce] =
      .ok [((drbgRun hmac (leNat outLenB) (drbgNew hmac e nonce p)
        [.rsd re rad, .gen ad1, .gen ad2]).2).getLastD []] ∧
    (drbgRun hmac (leNat outLenB) (drbgNew hmac e nonce p)
        [.rsd re rad, .gen ad1, .gen ad2]).2.length = 2 ∧
    hmacDRBGPredictionResistance hmac r [outLenB, e, p, ad1, e1, ad2, e2, nonce] =
      .ok [((drbgRun hmac (leNat outLenB) (drbgNew hmac e nonce p)
        [.rsd e1 ad1, .gen [], .rsd e2 ad2, .gen []]).2).getLastD []] ∧
    (drbgRun hmac (leNat outLenB) (drbgNew hmac e nonce p)
        [.rsd e1 ad1, .gen [], .rsd e2 ad2, .gen []]).2.length = 2 := by
  refine ⟨?_, rfl, ?_, rfl⟩
  · simp only [hmacDRBGReseed]
    rw [if_neg (by simp [h4])]
    rfl
  · simp only [hmacDRBGPredictionResistance]
    rw [if_neg (by simp [h4])]
    rfl

/-- Witness for C5: concrete 8-argument requests with output length 1. -/
theorem hmacDRBG_call_pattern_witness :
    hmacDRBGReseed hmacC rC [[1,0,0,0], [2], [3], [4], [5], [6], [7], [8]] =
      .ok [((drbgRun hmacC (leNat [1,0,0,0]) (drbgNew hmacC [2] [8] [3])
        [.rsd [5] [4], .gen [6], .gen [7]]).2).getLastD []] ∧
    (drbgRun hmacC (leNat [1,0,0,0]) (drbgNew hmacC [2] [8] [3])
        [.rsd [5] [4], .gen [6], .gen [7]]).2.length = 2 ∧
    hmacDRBGPredictionResistance hmacC rC [[1,0,0,0], [2], [3], [6], [11], [7], [12], [8]] =
      .ok [((drbgRun hmacC (leNat [1,0,0,0]) (drbgNew hmacC [2] [8] [3])
        [.rsd [11] [6], .gen [], .rsd [12] [7], .gen []]).2).getLastD []] ∧
    (drbgRun hmacC (leNat [1,0,0,0]) (drbgNew hmacC [2] [8] [3])
        [.rsd [11] [6], .gen [], .rsd [12] [7], .gen []]).2.length = 2 :=
  hmacDRBG_call_pattern hmacC rC [1,0,0,0] [2] [3] [4] [5] [6] [7] [11] [12] [8] (by decide)

theorem drbgFill_len (hmac : Bytes → Bytes → Bytes)
    (hlen : ∀ k m, (hmac k m).length = 32) :
    ∀ (need : Nat) (k v : Bytes), need ≤ (drbgFill hmac k v need).1.length := by
  intro need
  induction need using Nat.strong_induction_on with
  | _ need ih =>
    intro k v
    rw [drbgFill]
    by_cases h0 : need = 0
    · simp [h0]
    · have h32 := hlen k v
      rw [dif_neg h0, dif_neg (by omega)]
      simp only [List.length_append]
      have hrec := ih (need - (hmac k v).length) (by omega) k (hmac k v)
      omega

theorem drbgGenerate_len (hmac : Bytes → Bytes → Bytes)
    (hlen : ∀ k m, (hmac k m).length = 32) (s : DRBGState) (outLen : Nat) (ad : Bytes) :
    (drbgGenerate hmac s outLen ad).2.length = outLen := by
  unfold drbgGenerate
  rw [List.length_take, Nat.min_eq_left (drbgFill_len hmac hlen _ _ _)]

/-- C6: the two DRBG handlers consume no randomness beyond their byte
arguments — two invocations under different process random streams but
identical arguments return identical bytes — and each reply has exactly
the requested output length. -/
theorem hmacDRBG_deterministic (hmac : Bytes → Bytes → Bytes)
    (hlen : ∀ k m, (hmac k m).length = 32) (r1 r2 : Nat → Nat)
    (outLenB a1 a2 a3 a4 a5 a6 a7 : Bytes)
    (h4 : outLenB.length = 4) :
    hmacDRBGReseed hmac r1 [outLenB, a1, a2, a3, a4, a5, a6, a7] =
      hmacDRBGReseed hmac r2 [outLenB, a1, a2, a3, a4, a5, a6, a7] ∧
    hmacDRBGPredictionResistance hmac r1 [outLenB, a1, a2, a3, a4, a5, a6, a7] =
      hmacDRBGPredictionResistance hmac r2 [outLenB, a1, a2, a3, a4, a5, a6, a7] ∧
    replyShape (hmacDRBGReseed hmac r1 [outLenB, a1, a2, a3, a4, a5, a6, a7]) =
      [leNat outLenB] ∧
    replyShape (hmacDRBGPredictionResistance hmac r1 [outLenB, a1, a2, a3, a4, a5, a6, a7]) =
      [leNat outLenB] := by
  refine ⟨rfl, rfl, ?_, ?_⟩
  · simp only [hmacDRBGReseed]
    rw [if_neg (by simp [h4])]
    simp only [replyShape, List.map_cons, List.map_nil]
    rw [drbgGenerate_len hmac hlen]
  · simp only [hmacDRBGPredictionResistance]
    rw [if_neg (by simp [h4])]
    simp only [replyShape, List.map_cons, List.map_nil]
    rw [drbgGenerate_len hmac hlen]

/-- Witness for C6: a concrete 8-argument request under the two distinct
random streams `rC` and `rC2`, requested output length 2. -/
theorem hmacDRBG_deterministic_witness :
    hmacDRBGReseed hmacC rC [[2,0,0,0], [2], [3], [4], [5], [6], [7], [8]] =
      hmacDRBGReseed hmacC rC2 [[2,0,0,0], [2], [3], [4], [5], [6], [7], [8]] ∧
    hmacDRBGPredictionResistance hmacC rC [[2,0,0,0], [2], [3], [4], [5], [6], [7], [8]] =
      hmacDRBGPredictionResistance hmacC rC2 [[2,0,0,0], [2], [3], [4], [5], [6], [7], [8]] ∧
    replyShape (hmacDRBGReseed hmacC rC [[2,0,0,0], [2], [3], [4], [5], [6], [7], [8]]) =
      [leNat [2,0,0,0]] ∧
    replyShape (hmacDRBGPredictionResistance hmacC rC [[2,0,0,0], [2], [3], [4], [5], [6], [7], [8]]) =
      [leNat [2,0,0,0]] :=
  hmacDRBG_deterministic hmacC (fun _ _ => by simp [hmacC]) rC rC2
    [2,0,0,0] [2] [3] [4] [5] [6] [7] [8] (by decide)

theorem checkArgLens_head_err (l : List Nat) (h : 30 < l.headD 0) :
    isErr (checkArgLens 0 l) = true := by
  cases l with
  | nil => simp at h
  | cons x rest =>
    have hx : 30 < x := by simpa using h
    simp [checkArgLens, hx, isErr]

theorem checkArgLens_big_err : ∀ (l : List Nat) (i : Nat), (∃ x ∈ l, 1048576 < x) →
    isErr (checkArgLens i l) = true := by
  intro l
  induction l with
  | nil => intro i h; simp at h
  | cons x rest ih =>
    intro i h
    simp only [checkArgLens]
    by_cases h1 : i = 0 ∧ 30 < x
    · rw [if_pos h1]; rfl
    · rw [if_neg h1]
      by_cases h2 : 1048576 < x
      · rw [if_pos h2]; rfl
      · rw [if_neg h2]
        apply ih
        rcases h with ⟨y, hy, hgt⟩
        rcases List.mem_cons.mp hy with rfl | hmem
        · exact absurd hgt h2
        · exact ⟨y, hmem, hgt⟩

/-- C8: a record whose declared argument count is zero or exceeds 9,
whose first argument length exceeds 30, or any of whose argument lengths
exceeds 1,048,576, is a read error: the loop returns that error at once,
collecting no reply for the record, and the process exit status is
nonzero. -/
theorem channel_limits (table : List (Bytes × Handler)) (fuel : Nat) (s : List Nat)
    (h8 : 8 ≤ s.length)
    (hbad : recNumArgs s = 0 ∨ 9 < recNumArgs s ∨
      (4 + 4 * recNumArgs s ≤ s.length ∧
        (30 < (recArgLens s).headD 0 ∨ ∃ l ∈ recArgLens s, 1048576 < l))) :
    isErr (readRecord s) = true ∧
    (runLoop table (fuel + 1) s).1 = [] ∧
    exitCodeOf (runLoop table (fuel + 1) s) = 1 := by
  have herr : isErr (readRecord s) = true := by
    simp only [readRecord]
    rw [if_neg (by omega)]
    by_cases hz : leNat (s.take 4) = 0
    · rw [if_pos hz]; rfl
    · rw [if_neg hz]
      by_cases h9 : 9 < leNat (s.take 4)
      · rw [if_pos h9]; rfl
      · rw [if_neg h9]
        rcases hbad with h0 | h9' | ⟨hlen, hviol⟩
        · exact absurd (by simpa [recNumArgs] using h0) hz
        · exact absurd (by simpa [recNumArgs] using h9') h9
        · rw [if_neg (by simp only [recNumArgs] at hlen; omega)]
          have hcheck : isErr (checkArgLens 0
              ((List.range (leNat (s.take 4))).map
                (fun i => leNat ((s.drop (4 + 4 * i)).take 4)))) = true := by
            rcases hviol with hhead | hbig
            · exact checkArgLens_head_err _ (by simpa [recArgLens, recNumArgs] using hhead)
            · exact checkArgLens_big_err _ 0 (by simpa [recArgLens, recNumArgs] using hbig)
          rcases hc : checkArgLens 0
              ((List.range (leNat (s.take 4))).map
                (fun i => leNat ((s.drop (4 + 4 * i)).take 4))) with e | u
          · rfl
          · rw [hc] at hcheck; simp [isErr] at hcheck
  rcases hrec : readRecord s with e | v
  · refine ⟨rfl, ?_, ?_⟩ <;> simp [runLoop, hrec, exitCodeOf]
  · rw [hrec] at herr; simp [isErr] at herr

/-- Witness for C8: a record declaring zero arguments (8 zero bytes):
the loop reports the error, returns no replies, and the exit status is 1. -/
theorem channel_limits_witness :
    isErr (readRecord (List.replicate 8 0)) = true ∧
    (runLoop [] (0 + 1) (List.replicate 8 0)).1 = [] ∧
    exitCodeOf (runLoop [] (0 + 1) (List.replicate 8 0)) = 1 :=
  channel_limits [] 0 (List.replicate 8 0) (by decide) (Or.inl (by decide))

end TestModuleWrapper
